import Mathlib

/-!
Verification of the ArtNet test streamer (`artnet_test.py`).

The Python source is shallowly embedded: byte buffers (`bytearray`) become
`List Nat` (each element a byte value), Python `int` becomes `Int` (or `Nat`
where the source value is provably nonnegative), and the floating-point
colour arithmetic of `colorsys` is modelled over `ℚ` with `int(...)`
truncation as `Int.floor` on the (always nonnegative) intermediate values.
The infinite send loop is modelled as a step function driven by a finite
list of per-tick events (successful send, or a raised exception), mirroring
the `try: while True: ... except KeyboardInterrupt:` structure of the source.
-/

/-- Embeds `create_artnet_packet(universe, dmx_data)`.
`universe` is a Python `int` (may be negative or large), hence `Int` here;
`universe & 0xFF` is `uni % 256` and `universe >> 8` is `uni / 256`
(Python's `&`/`>>` act on two's complement, agreeing with Euclidean
`%`/`/` — which Lean's `Int` operators are — for a positive power-of-two
modulus).  `dmx_data` is the byte list; the length field stores
`(len >> 8) & 0xFF` then `len & 0xFF` (big-endian). -/
def create_artnet_packet (uni : Int) (dmx_data : List Nat) : List Nat :=
  [0x41, 0x72, 0x74, 0x2D, 0x4E, 0x65, 0x74, 0x00,  -- b'Art-Net\0'
   0x00, 0x50,                                       -- ArtDMX opcode, little-endian
   0x00, 0x0E,                                       -- protocol version 14, big-endian
   0x00,                                             -- sequence
   0x00,                                             -- physical port
   (uni % 256).toNat, (uni / 256 % 256).toNat,
   dmx_data.length / 256 % 256, dmx_data.length % 256]
  ++ dmx_data

/-- Claim C1: for a 16-bit universe and channel data of length ≤ 512, the packet
has length `18 + len(d)` and exactly the documented layout: signature
`Art-Net\0`, opcode `0x00,0x50`, protocol version `0x00,0x0E`, sequence `0`,
physical port `0`, universe little-endian, length big-endian, then the data
unmodified; and the concrete 3-pixel example equals the 27-byte literal. -/
theorem create_artnet_packet_layout (u : Int) (d : List Nat)
    (hu0 : 0 ≤ u) (hu : u < 65536) (hd : d.length ≤ 512) :
    (create_artnet_packet u d).length = 18 + d.length
    ∧ (create_artnet_packet u d).take 8 = [0x41, 0x72, 0x74, 0x2D, 0x4E, 0x65, 0x74, 0x00]
    ∧ (create_artnet_packet u d).getD 8 0 = 0x00
    ∧ (create_artnet_packet u d).getD 9 0 = 0x50
    ∧ (create_artnet_packet u d).getD 10 0 = 0x00
    ∧ (create_artnet_packet u d).getD 11 0 = 0x0E
    ∧ (create_artnet_packet u d).getD 12 0 = 0x00
    ∧ (create_artnet_packet u d).getD 13 0 = 0x00
    ∧ (create_artnet_packet u d).getD 14 0 = u.toNat % 256
    ∧ (create_artnet_packet u d).getD 15 0 = u.toNat / 256
    ∧ (create_artnet_packet u d).getD 16 0 = d.length / 256
    ∧ (create_artnet_packet u d).getD 17 0 = d.length % 256
    ∧ (create_artnet_packet u d).drop 18 = d
    ∧ create_artnet_packet 0 [255, 0, 0, 255, 0, 0, 255, 0, 0] =
        [0x41, 0x72, 0x74, 0x2D, 0x4E, 0x65, 0x74, 0x00, 0x00, 0x50, 0x00, 0x0E,
         0x00, 0x00, 0x00, 0x00, 0x00, 0x09,
         0xFF, 0x00, 0x00, 0xFF, 0x00, 0x00, 0xFF, 0x00, 0x00] := by
  refine ⟨?_, ?_, ?_, ?_, ?_, ?_, ?_, ?_, ?_, ?_, ?_, ?_, ?_, ?_⟩ <;>
    simp [create_artnet_packet] <;> omega

/-- Closed witness for `create_artnet_packet_layout` at `u = 0`,
`d = [255,0,0,255,0,0,255,0,0]`. -/
theorem create_artnet_packet_layout_witness :
    (0 : Int) ≤ 0 ∧ (0 : Int) < 65536
    ∧ ([255, 0, 0, 255, 0, 0, 255, 0, 0] : List Nat).length ≤ 512
    ∧ (create_artnet_packet 0 [255, 0, 0, 255, 0, 0, 255, 0, 0]).length
        = 18 + ([255, 0, 0, 255, 0, 0, 255, 0, 0] : List Nat).length :=
  ⟨by decide, by decide, by decide,
   (create_artnet_packet_layout 0 [255, 0, 0, 255, 0, 0, 255, 0, 0]
      (by decide) (by decide) (by decide)).1⟩

/-- Claim C10: `create_artnet_packet` is total (the embedding is a total
function: the Python source performs no validation and cannot raise for any
integer universe and any byte list), and for out-of-range inputs the emitted
universe field decodes (little-endian) to `universe mod 2^16` and the length
field decodes (big-endian) to `len(dmx_data) mod 2^16`. -/
theorem create_artnet_packet_total (u : Int) (d : List Nat) :
    (create_artnet_packet u d).length = 18 + d.length
    ∧ (create_artnet_packet u d).getD 14 0 + 256 * ((create_artnet_packet u d).getD 15 0)
        = (u % 65536).toNat
    ∧ 256 * ((create_artnet_packet u d).getD 16 0) + (create_artnet_packet u d).getD 17 0
        = d.length % 65536
    ∧ (create_artnet_packet u d).drop 18 = d := by
  refine ⟨?_, ?_, ?_, ?_⟩ <;> simp [create_artnet_packet] <;> omega

/-- Exceptions that can interrupt an effect loop's body: the user's
interrupt signal (`KeyboardInterrupt`), or an OS-level failure of
`sock.sendto` such as network-unreachable (`OSError`). -/
inductive PyExc
  | keyboardInterrupt
  | osError
  deriving DecidableEq

/-- What happens during one iteration of the `while True:` body: the send
succeeds (`ok`), or an exception is raised in the body (`exc`). -/
inductive TickEvent
  | ok
  | exc (e : PyExc)
  deriving DecidableEq

/-- How (whether) the run loop ended after the observed events. -/
inductive Outcome
  | running
  | cleanExit
  | crashed (e : PyExc)
  deriving DecidableEq

/-- The packet sent by `clear_leds()`: `bytearray(num_leds * 3)` (all
zeros) wrapped by `create_artnet_packet`. -/
def clearPacket (N : Nat) (u : Int) : List Nat :=
  create_artnet_packet u (List.replicate (N * 3) 0)

/-- The exit code of the Python process for a finished loop: falling off
the end of the script is exit code 0, an uncaught exception makes the
interpreter exit non-zero (1); `none` while the loop is still running. -/
def processExit : Outcome → Option Nat
  | .running => none
  | .cleanExit => some 0
  | .crashed _ => some 1

/-- Embeds the `try: while True: ... except KeyboardInterrupt: clear_leds()`
run-loop skeleton shared by all four effect functions of `artnet_test.py`.
`tick` maps the effect's state to the `dmx_data` it builds this iteration
and the state left for the next iteration; each `TickEvent` drives one
iteration.  On `ok` the packet is sent and the loop continues; on a raised
`KeyboardInterrupt` the `except` clause sends the clear packet and the
function returns; any other exception is not matched by the `except`
clause and escapes, ending the process. -/
def runLoop {σ : Type} (N : Nat) (u : Int) (tick : σ → List Nat × σ) :
    σ → List TickEvent → List (List Nat) × Outcome
  | _, [] => ([], .running)
  | s, .ok :: evs =>
      let r := runLoop N u tick (tick s).2 evs
      (create_artnet_packet u (tick s).1 :: r.1, r.2)
  | _, .exc .keyboardInterrupt :: _ => ([clearPacket N u], .cleanExit)
  | _, .exc .osError :: _ => ([], .crashed .osError)

/-- The payload of any packet is recovered by dropping the 18 header bytes. -/
lemma create_artnet_packet_drop18 (u : Int) (d : List Nat) :
    (create_artnet_packet u d).drop 18 = d := by
  simp [create_artnet_packet]

/-- The packets sent by `n` successful iterations from state `s`. -/
def sentFrames {σ : Type} (u : Int) (tick : σ → List Nat × σ) : σ → Nat → List (List Nat)
  | _, 0 => []
  | s, n + 1 => create_artnet_packet u (tick s).1 :: sentFrames u tick (tick s).2 n

/-- After `n` successful iterations, a raised `KeyboardInterrupt` makes the
loop send the clear packet and return cleanly, ignoring pending events. -/
lemma runLoop_interrupt_trace {σ : Type} (N : Nat) (u : Int)
    (tick : σ → List Nat × σ) (s : σ) (n : Nat) (pending : List TickEvent) :
    runLoop N u tick s
        (List.replicate n .ok ++ .exc .keyboardInterrupt :: pending) =
      (sentFrames u tick s n ++ [clearPacket N u], .cleanExit) := by
  induction n generalizing s with
  | zero => simp [runLoop, sentFrames]
  | succ k ih => simp [runLoop, sentFrames, ih]

/-- After `n` successful iterations, a raised `OSError` ends the run with
the exception escaping: no clear packet, pending events never run. -/
lemma runLoop_osError_trace {σ : Type} (N : Nat) (u : Int)
    (tick : σ → List Nat × σ) (s : σ) (n : Nat) (pending : List TickEvent) :
    runLoop N u tick s (List.replicate n .ok ++ .exc .osError :: pending) =
      (sentFrames u tick s n, .crashed .osError) := by
  induction n generalizing s with
  | zero => simp [runLoop, sentFrames]
  | succ k ih => simp [runLoop, sentFrames, ih]

/-- Claim C2: for every effect (any tick function and state) and any number
`n` of completed ticks, when `KeyboardInterrupt` cancels the loop the trace
is exactly the `n` frames followed by one clear packet — one additional
packet, whose channel data is `3*N` zero bytes — the outcome is a clean
exit (exit code 0) and nothing further is sent, whatever events were still
pending. -/
theorem runLoop_cancellation {σ : Type} (N : Nat) (u : Int)
    (tick : σ → List Nat × σ) (s : σ) (n : Nat) (pending : List TickEvent) :
    runLoop N u tick s
        (List.replicate n .ok ++ .exc .keyboardInterrupt :: pending) =
      (sentFrames u tick s n ++ [clearPacket N u], .cleanExit)
    ∧ (clearPacket N u).drop 18 = List.replicate (N * 3) 0
    ∧ processExit .cleanExit = some 0 :=
  ⟨runLoop_interrupt_trace N u tick s n pending,
   create_artnet_packet_drop18 u (List.replicate (N * 3) 0), rfl⟩

/-- Claim C3, amended: a UDP send failure (`OSError`) is *not* caught at the
loop boundary — the `except` clause matches only `KeyboardInterrupt` — so
after `n` successful ticks an `OSError` terminates the loop immediately:
the exception escapes, no clear packet and no further frames are sent even
though more ticks were scheduled, and the process exits non-zero. -/
theorem runLoop_sendFailure {σ : Type} (N : Nat) (u : Int)
    (tick : σ → List Nat × σ) (s : σ) (n : Nat) (pending : List TickEvent) :
    runLoop N u tick s (List.replicate n .ok ++ .exc .osError :: pending) =
      (sentFrames u tick s n, .crashed .osError)
    ∧ processExit (.crashed .osError) = some 1 :=
  ⟨runLoop_osError_trace N u tick s n pending, rfl⟩

/-- Embeds the standard library routine `colorsys.hsv_to_rgb(h, s, v)` on
unit-interval arguments.  The source's IEEE floating point is modelled by
exact rational arithmetic; Python's `int(h*6.0)` truncates toward zero,
which on the nonnegative `h` used here is `⌊h * 6⌋`. -/
def colorsys_hsv_to_rgb (h s v : ℚ) : ℚ × ℚ × ℚ :=
  if s = 0 then (v, v, v)
  else
    let i : ℤ := ⌊h * 6⌋
    let f : ℚ := h * 6 - (i : ℚ)
    let p : ℚ := v * (1 - s)
    let q : ℚ := v * (1 - s * f)
    let t : ℚ := v * (1 - s * (1 - f))
    match (i % 6).toNat with
    | 0 => (v, t, p)
    | 1 => (q, v, p)
    | 2 => (p, q, t)
    | 3 => (t, p, q)
    | 4 => (p, v, q)
    | _ => (v, p, t)

/-- Embeds `hsv_to_rgb(h, s, v)` of `artnet_test.py`: scales the byte
arguments to `[0,1]`, converts through `colorsys.hsv_to_rgb`, and truncates
each result times 255 back to an integer (`int(r * 255)`; the results are
nonnegative, so truncation is `⌊·⌋` and the value is returned as `Nat`). -/
def hsv_to_rgb (h s v : Nat) : Nat × Nat × Nat :=
  let c := colorsys_hsv_to_rgb ((h : ℚ) / 255) ((s : ℚ) / 255) ((v : ℚ) / 255)
  ((⌊c.1 * 255⌋).toNat, (⌊c.2.1 * 255⌋).toNat, (⌊c.2.2 * 255⌋).toNat)

/-- On unit-interval saturation and value, every component that
`colorsys_hsv_to_rgb` can return lies in `[0, 1]`. -/
lemma colorsys_hsv_to_rgb_bounds (h s v : ℚ)
    (hs0 : 0 ≤ s) (hs1 : s ≤ 1) (hv0 : 0 ≤ v) (hv1 : v ≤ 1) :
    (0 ≤ (colorsys_hsv_to_rgb h s v).1 ∧ (colorsys_hsv_to_rgb h s v).1 ≤ 1)
    ∧ (0 ≤ (colorsys_hsv_to_rgb h s v).2.1 ∧ (colorsys_hsv_to_rgb h s v).2.1 ≤ 1)
    ∧ (0 ≤ (colorsys_hsv_to_rgb h s v).2.2 ∧ (colorsys_hsv_to_rgb h s v).2.2 ≤ 1) := by
  have hf0 : (0 : ℚ) ≤ h * 6 - (⌊h * 6⌋ : ℤ) := by
    have := Int.floor_le (h * 6); linarith
  have hf1 : h * 6 - ((⌊h * 6⌋ : ℤ) : ℚ) ≤ 1 := by
    have := Int.lt_floor_add_one (h * 6); linarith
  have hv' : 0 ≤ v ∧ v ≤ 1 := ⟨hv0, hv1⟩
  have hp : 0 ≤ v * (1 - s) ∧ v * (1 - s) ≤ 1 := by
    constructor <;> nlinarith
  have hq : 0 ≤ v * (1 - s * (h * 6 - ((⌊h * 6⌋ : ℤ) : ℚ)))
      ∧ v * (1 - s * (h * 6 - ((⌊h * 6⌋ : ℤ) : ℚ))) ≤ 1 := by
    constructor <;> nlinarith
  have ht : 0 ≤ v * (1 - s * (1 - (h * 6 - ((⌊h * 6⌋ : ℤ) : ℚ))))
      ∧ v * (1 - s * (1 - (h * 6 - ((⌊h * 6⌋ : ℤ) : ℚ)))) ≤ 1 := by
    constructor <;> nlinarith
  simp only [colorsys_hsv_to_rgb]
  split
  · exact ⟨hv', hv', hv'⟩
  · split
    · exact ⟨hv', ht, hp⟩
    · exact ⟨hq, hv', hp⟩
    · exact ⟨hp, hq, ht⟩
    · exact ⟨ht, hp, hq⟩
    · exact ⟨hp, hv', hq⟩
    · exact ⟨hv', hp, ht⟩

/-- Claim C7: for byte inputs, `hsv_to_rgb` returns channels in `[0, 255]`
(the lower bound is inherent in the `Nat` result type); `hsv_to_rgb(0,0,v)`
is `(v,v,v)` exactly; and `hsv_to_rgb(0,255,255)` is pure red `(255,0,0)`
(exactly, hence within the ±1 truncation tolerance).  Determinism and
freedom from side effects hold because the embedding is a pure function of
its arguments, and truncation (not rounding) is built into the definition. -/
theorem hsv_to_rgb_contract (h s v : Nat)
    (hh : h ≤ 255) (hs : s ≤ 255) (hv : v ≤ 255) :
    ((hsv_to_rgb h s v).1 ≤ 255
      ∧ (hsv_to_rgb h s v).2.1 ≤ 255
      ∧ (hsv_to_rgb h s v).2.2 ≤ 255)
    ∧ hsv_to_rgb 0 0 v = (v, v, v)
    ∧ hsv_to_rgb 0 255 255 = (255, 0, 0) := by
  refine ⟨?_, ?_, ?_⟩
  · have hs0 : (0 : ℚ) ≤ (s : ℚ) / 255 := by positivity
    have hs1 : (s : ℚ) / 255 ≤ 1 := by
      rw [div_le_one (by norm_num)]; exact_mod_cast hs
    have hv0 : (0 : ℚ) ≤ (v : ℚ) / 255 := by positivity
    have hv1 : (v : ℚ) / 255 ≤ 1 := by
      rw [div_le_one (by norm_num)]; exact_mod_cast hv
    obtain ⟨⟨h10, h11⟩, ⟨h20, h21⟩, ⟨h30, h31⟩⟩ :=
      colorsys_hsv_to_rgb_bounds ((h : ℚ) / 255) ((s : ℚ) / 255) ((v : ℚ) / 255)
        hs0 hs1 hv0 hv1
    have b1 : ⌊(colorsys_hsv_to_rgb ((h : ℚ) / 255) ((s : ℚ) / 255) ((v : ℚ) / 255)).1 * 255⌋
        ≤ 255 := by
      have : (colorsys_hsv_to_rgb ((h : ℚ) / 255) ((s : ℚ) / 255) ((v : ℚ) / 255)).1 * 255
          ≤ (255 : ℚ) := by nlinarith
      calc ⌊(colorsys_hsv_to_rgb ((h : ℚ) / 255) ((s : ℚ) / 255) ((v : ℚ) / 255)).1 * 255⌋
          ≤ ⌊(255 : ℚ)⌋ := Int.floor_le_floor this
        _ = 255 := by norm_num
    have b2 : ⌊(colorsys_hsv_to_rgb ((h : ℚ) / 255) ((s : ℚ) / 255) ((v : ℚ) / 255)).2.1 * 255⌋
        ≤ 255 := by
      have : (colorsys_hsv_to_rgb ((h : ℚ) / 255) ((s : ℚ) / 255) ((v : ℚ) / 255)).2.1 * 255
          ≤ (255 : ℚ) := by nlinarith
      calc ⌊(colorsys_hsv_to_rgb ((h : ℚ) / 255) ((s : ℚ) / 255) ((v : ℚ) / 255)).2.1 * 255⌋
          ≤ ⌊(255 : ℚ)⌋ := Int.floor_le_floor this
        _ = 255 := by norm_num
    have b3 : ⌊(colorsys_hsv_to_rgb ((h : ℚ) / 255) ((s : ℚ) / 255) ((v : ℚ) / 255)).2.2 * 255⌋
        ≤ 255 := by
      have : (colorsys_hsv_to_rgb ((h : ℚ) / 255) ((s : ℚ) / 255) ((v : ℚ) / 255)).2.2 * 255
          ≤ (255 : ℚ) := by nlinarith
      calc ⌊(colorsys_hsv_to_rgb ((h : ℚ) / 255) ((s : ℚ) / 255) ((v : ℚ) / 255)).2.2 * 255⌋
          ≤ ⌊(255 : ℚ)⌋ := Int.floor_le_floor this
        _ = 255 := by norm_num
    exact ⟨by simp only [hsv_to_rgb]; omega, by simp only [hsv_to_rgb]; omega,
      by simp only [hsv_to_rgb]; omega⟩
  · norm_num [hsv_to_rgb, colorsys_hsv_to_rgb, div_mul_cancel₀,
      Int.floor_natCast, Int.toNat_natCast]
  · norm_num [hsv_to_rgb, colorsys_hsv_to_rgb]
    rfl

/-- Closed witness for `hsv_to_rgb_contract` at `(h,s,v) = (128, 200, 100)`. -/
theorem hsv_to_rgb_contract_witness :
    (128 : Nat) ≤ 255 ∧ (200 : Nat) ≤ 255 ∧ (100 : Nat) ≤ 255
    ∧ (((hsv_to_rgb 128 200 100).1 ≤ 255
        ∧ (hsv_to_rgb 128 200 100).2.1 ≤ 255
        ∧ (hsv_to_rgb 128 200 100).2.2 ≤ 255)
      ∧ hsv_to_rgb 0 0 100 = (100, 100, 100)
      ∧ hsv_to_rgb 0 255 255 = (255, 0, 0)) :=
  ⟨by decide, by decide, by decide,
   hsv_to_rgb_contract 128 200 100 (by decide) (by decide) (by decide)⟩

/-- Constant `DEFAULT_NUM_LEDS` of `artnet_test.py`; the CLI never overrides
`num_leds`, so every run uses this strip length. -/
def num_leds : Nat := 144

/-- Pixel `i`'s hue in `rainbow_effect`: `(i * 5 + offset) % 256`. -/
def rainbowHue (i offset : Nat) : Nat := (i * 5 + offset) % 256

/-- The `dmx_data` built by one iteration of `rainbow_effect`'s inner `for`
loop for strip length `N`: pixel `i` carries `hsv_to_rgb(hue_i, 255, 255)`
at channels `3i, 3i+1, 3i+2`. -/
def rainbowFrame (N offset : Nat) : List Nat :=
  (List.range N).flatMap (fun i =>
    [(hsv_to_rgb (rainbowHue i offset) 255 255).1,
     (hsv_to_rgb (rainbowHue i offset) 255 255).2.1,
     (hsv_to_rgb (rainbowHue i offset) 255 255).2.2])

/-- Offset update at the end of each `rainbow_effect` iteration:
`offset = (offset + 1) % 256`. -/
def rainbowNext (offset : Nat) : Nat := (offset + 1) % 256

/-- One iteration of `rainbow_effect`: the frame sent and the next state. -/
def rainbowTick (N : Nat) (offset : Nat) : List Nat × Nat :=
  (rainbowFrame N offset, rainbowNext offset)

/-- One iteration of `solid_color`: every pixel gets `hsv_to_rgb(hue,255,255)`,
then `hue = (hue + 1) % 256`. -/
def solidTick (N : Nat) (hue : Nat) : List Nat × Nat :=
  ((List.range N).flatMap (fun _ =>
      [(hsv_to_rgb hue 255 255).1, (hsv_to_rgb hue 255 255).2.1,
       (hsv_to_rgb hue 255 255).2.2]),
   (hue + 1) % 256)

/-- Claim C8: starting from `offset = 0`, the offset after `k` ticks of
`rainbow_effect` is `k % 256`, so the hue written to pixel 0 (whose three
channels open the frame) is `k % 256`; pixel `i` gets hue
`(i*5 + offset) % 256`; and the state is periodic with least period 256. -/
theorem rainbow_period :
    (∀ k : Nat, rainbowNext^[k] 0 = k % 256)
    ∧ (∀ k : Nat, rainbowHue 0 (rainbowNext^[k] 0) = k % 256)
    ∧ (∀ i offset : Nat, rainbowHue i offset = (i * 5 + offset) % 256)
    ∧ rainbowNext^[256] 0 = 0
    ∧ (∀ k : Nat, 0 < k → k < 256 → rainbowNext^[k] 0 ≠ 0)
    ∧ (∀ N offset : Nat, 0 < N → (rainbowFrame N offset).take 3 =
        [(hsv_to_rgb (rainbowHue 0 offset) 255 255).1,
         (hsv_to_rgb (rainbowHue 0 offset) 255 255).2.1,
         (hsv_to_rgb (rainbowHue 0 offset) 255 255).2.2]) := by
  have hiter : ∀ k : Nat, rainbowNext^[k] 0 = k % 256 := by
    intro k
    induction k with
    | zero => simp
    | succ m ih =>
        rw [Function.iterate_succ_apply', ih, rainbowNext]
        omega
  refine ⟨hiter, ?_, fun i offset => rfl, ?_, ?_, ?_⟩
  · intro k
    rw [hiter k, rainbowHue]
    omega
  · rw [hiter 256]
  · intro k hk0 hk256
    rw [hiter k]
    omega
  · intro N offset hN
    obtain ⟨m, rfl⟩ : ∃ m, N = m + 1 := ⟨N - 1, by omega⟩
    rw [rainbowFrame, List.range_succ_eq_map, List.flatMap_cons]
    rfl

/-- Closed witness for `rainbow_period`, reading off the minimality clause
at `k = 7` and the pixel-0 clause at `N = 144`, `offset = 3`. -/
theorem rainbow_period_witness :
    (0 < 7 ∧ 7 < 256 ∧ rainbowNext^[7] 0 ≠ 0)
    ∧ (0 < 144 ∧ (rainbowFrame 144 3).take 3 =
        [(hsv_to_rgb (rainbowHue 0 3) 255 255).1,
         (hsv_to_rgb (rainbowHue 0 3) 255 255).2.1,
         (hsv_to_rgb (rainbowHue 0 3) 255 255).2.2]) :=
  ⟨⟨by decide, by decide, rainbow_period.2.2.2.2.1 7 (by decide) (by decide)⟩,
   ⟨by decide, rainbow_period.2.2.2.2.2 144 3 (by decide)⟩⟩

/-- Claim C3 counterexample: running `rainbow_effect` (strip 144, universe 0,
initial offset 0) where the first `sendto` raises `OSError` while a further
tick is scheduled: contrary to the claim, the frame is not merely skipped —
nothing is sent, the scheduled tick never runs, and the exception escapes
the run loop (the only caught exception is `KeyboardInterrupt`). -/
theorem runLoop_osError_uncaught :
    runLoop 144 0 (rainbowTick 144) 0 [.exc .osError, .ok] = ([], .crashed .osError)
    ∧ processExit (.crashed .osError) ≠ some 0 := by
  exact ⟨rfl, by decide⟩

/-- What the top level of `artnet_test.py` (the `if effect == ...` chain
after argument parsing) decides to do: enter the named effect's run loop,
or — for an unrecognized name — print the error text, send the single
clear packet via `clear_leds()`, and fall off the end of the script with
the given exit code. -/
inductive MainBehavior
  | runEffect (name : String)
  | configError (packets : List (List Nat)) (exit : Nat)
  deriving DecidableEq

/-- Embeds the effect dispatch of `artnet_test.py` (the trailing
`if/elif/else` chain): a recognized name starts that effect's loop; any
other name prints the two error lines, sends one clear packet, and the
script ends normally — CPython then exits with status 0, since the script
neither raises nor calls `sys.exit`. -/
def dispatch (N : Nat) (u : Int) (effect : String) : MainBehavior :=
  if effect = "rainbow" then .runEffect ("rainbow")
  else if effect = "chase" then .runEffect ("chase")
  else if effect = "random" then .runEffect ("random")
  else if effect = "solid" then .runEffect ("solid")
  else .configError [clearPacket N u] 0

/-- Claim C4 counterexample: for the unknown effect name `"sparkle"` the
program sends the single all-zero frame and then exits with status 0 — not
with a non-zero exit code as the claim states: no run with an unknown
effect name produces a non-zero exit code. -/
theorem dispatch_unknown_exit_zero :
    dispatch 144 0 "sparkle" = .configError [clearPacket 144 0] 0
    ∧ ¬ ∃ pkts e, dispatch 144 0 "sparkle" = .configError pkts e ∧ e ≠ 0 := by
  refine ⟨rfl, ?_⟩
  rintro ⟨pkts, e, heq, hne⟩
  rw [show dispatch 144 0 "sparkle" = .configError [clearPacket 144 0] 0 from rfl] at heq
  cases heq
  exact hne rfl

/-- Claim C4, amended: for every effect name outside
`{rainbow, chase, random, solid}` the program never enters an effect run
loop; it sends exactly one packet, the all-zero clear frame, and the
process then ends with exit code 0 (the source prints the error and falls
off the end of the script — it never sets a non-zero status), while a
clean interrupt of a valid run also exits with code 0. -/
theorem dispatch_unknown_effect (N : Nat) (u : Int) (effect : String)
    (h1 : effect ≠ "rainbow") (h2 : effect ≠ "chase")
    (h3 : effect ≠ "random") (h4 : effect ≠ "solid") :
    dispatch N u effect = .configError [clearPacket N u] 0
    ∧ (clearPacket N u).drop 18 = List.replicate (N * 3) 0
    ∧ (∀ name : String, dispatch N u effect ≠ .runEffect name)
    ∧ (∀ {σ : Type} (tick : σ → List Nat × σ) (s : σ) (n : Nat)
        (pending : List TickEvent),
        processExit (runLoop N u tick s
          (List.replicate n .ok ++ .exc .keyboardInterrupt :: pending)).2 = some 0) := by
  have hd : dispatch N u effect = .configError [clearPacket N u] 0 := by
    rw [dispatch, if_neg h1, if_neg h2, if_neg h3, if_neg h4]
  refine ⟨hd, create_artnet_packet_drop18 u (List.replicate (N * 3) 0), ?_, ?_⟩
  · intro name h
    rw [hd] at h
    cases h
  · intro σ tick s n pending
    rw [runLoop_interrupt_trace]
    rfl

/-- Closed witness for `dispatch_unknown_effect` at `N = 144`, `u = 0`,
`effect = "strobe"`. -/
theorem dispatch_unknown_effect_witness :
    ("strobe" ≠ "rainbow" ∧ "strobe" ≠ "chase" ∧ "strobe" ≠ "random"
      ∧ "strobe" ≠ "solid")
    ∧ dispatch 144 0 "strobe" = .configError [clearPacket 144 0] 0 :=
  ⟨⟨by decide, by decide, by decide, by decide⟩,
   (dispatch_unknown_effect 144 0 "strobe"
      (by decide) (by decide) (by decide) (by decide)).1⟩

/-- One channel of `random_effect`'s fade: `int(c * 0.9)`.  For a byte
value `c` the IEEE-double product `c * 0.9` lies within `2^-45` of the
exact `9c/10`, whose distance to the nearest integer below/above is either
zero or at least `1/10`; when `9c/10` is an integer the correctly rounded
product is that integer exactly, so the truncation always equals exact
`c * 9 / 10` in natural division. -/
def decayChannel (c : Nat) : Nat := c * 9 / 10

/-- The fade pass of `random_effect`: the source iterates the pixels and
their three channels, replacing each byte of the `3N`-byte buffer by
`int(byte * 0.9)` — pointwise over the flat buffer, a map. -/
def decayBuf (buf : List Nat) : List Nat := buf.map decayChannel

/-- Claim C9: one decay step strictly decreases every positive channel and
fixes zero; channel-wise this lifts pointwise to the buffer (`getD` with
default 0), iterated decay is monotonically non-increasing, and the
all-zero buffer is a fixed point. -/
theorem decay_monotone :
    (∀ c : Nat, decayChannel c ≤ c)
    ∧ (∀ c : Nat, 0 < c → decayChannel c < c)
    ∧ decayChannel 0 = 0
    ∧ (∀ (c k : Nat), decayChannel^[k + 1] c ≤ decayChannel^[k] c)
    ∧ (∀ (buf : List Nat) (i : Nat),
        (decayBuf buf).getD i 0 = decayChannel (buf.getD i 0))
    ∧ (∀ n : Nat, decayBuf (List.replicate n 0) = List.replicate n 0) := by
  have hle : ∀ c : Nat, decayChannel c ≤ c := fun c => by
    unfold decayChannel; omega
  have hmap : ∀ (buf : List Nat) (i : Nat),
      (decayBuf buf).getD i 0 = decayChannel (buf.getD i 0) := by
    intro buf
    induction buf with
    | nil => intro i; simp [decayBuf, decayChannel]
    | cons a l ih =>
        intro i
        cases i with
        | zero => simp [decayBuf]
        | succ j => simpa [decayBuf] using ih j
  refine ⟨hle, fun c hc => by unfold decayChannel; omega, rfl, ?_, hmap, ?_⟩
  · intro c k
    rw [Function.iterate_succ_apply']
    exact hle _
  · intro n
    simp [decayBuf, List.map_replicate, decayChannel]

/-- Closed witness for `decay_monotone`: the strict-decrease clause at
`c = 5`. -/
theorem decay_monotone_witness : 0 < 5 ∧ decayChannel 5 < 5 :=
  ⟨by decide, decay_monotone.2.1 5 (by decide)⟩

/-- Number of sparks per tick in `random_effect`:
`int(num_leds * 0.05)`.  The IEEE-double product `N * 0.05` exceeds exact
`N/20` by about `N * 2.8e-18`; when `20 ∣ N` the correctly rounded product
is the integer `N/20` itself, and otherwise the fractional part of `N/20`
is at least `1/20`, far above the error — so truncation equals exact
`N * 5 / 100` in natural division for every strip length in question. -/
def sparkCount (N : Nat) : Nat := N * 5 / 100

/-- Models `random.randint(a, b)` (uniform inclusive) driven by one raw draw from
the random module, modelled as the oracle projection `a + raw % (b-a+1)`:
it keeps the result in `[a, b]` and is onto that range, which is what the
structural claims use; the distribution itself lives in the oracle. -/
def randint (a b raw : Nat) : Nat := a + raw % (b - a + 1)

/-- Write pixel `p`'s three channels into the flat buffer — the bytearray
assignments `dmx_data[p*3] = r; dmx_data[p*3+1] = g; dmx_data[p*3+2] = b`. -/
def setPixel (buf : List Nat) (p : Nat) (c : Nat × Nat × Nat) : List Nat :=
  ((buf.set (p * 3) c.1).set (p * 3 + 1) c.2.1).set (p * 3 + 2) c.2.2

/-- The spark writes of one `random_effect` tick for strip length `N`,
drawing four raws per spark (pixel index, then r, g, b) from the stream
`rng`: `i = randint(0, N-1)`, each channel `randint(180, 255)`. -/
def sparkAssignments (N : Nat) (rng : Nat → Nat) : List (Nat × Nat × Nat × Nat) :=
  (List.range (sparkCount N)).map (fun j =>
    (randint 0 (N - 1) (rng (4 * j)),
     randint 180 255 (rng (4 * j + 1)),
     randint 180 255 (rng (4 * j + 2)),
     randint 180 255 (rng (4 * j + 3))))

/-- One iteration of `random_effect`: fade the whole buffer by 0.9, then
apply the spark writes; the frame sent is the resulting buffer, which also
persists into the next state together with the advanced random stream. -/
def randomTick (N : Nat) (st : List Nat × (Nat → Nat)) :
    List Nat × (List Nat × (Nat → Nat)) :=
  let buf := (sparkAssignments N st.2).foldl
    (fun b a => setPixel b a.1 (a.2.1, a.2.2.1, a.2.2.2)) (decayBuf st.1)
  (buf, (buf, fun k => st.2 (k + 4 * sparkCount N)))

/-- Claim C6 counterexample: at the default strip length `N = 144` one
`random_effect` tick performs `int(144 * 0.05) = 7` spark assignments, not
`ceil(144 * 0.05) = 8` as the claim states. -/
theorem sparkAssignments_count_144 :
    sparkCount 144 = 7
    ∧ (sparkAssignments 144 (fun _ => 0)).length = 7
    ∧ (sparkAssignments 144 (fun _ => 0)).length ≠ 8 := by
  refine ⟨rfl, ?_, ?_⟩ <;> simp [sparkAssignments, sparkCount]

/-- Claim C6, amended: each tick, after the whole-buffer decay, the sparkle
effect performs exactly `int(N * 0.05) = ⌊N/20⌋` spark assignments (7, not
8, for the default N = 144), each at a pixel index in `[0, N-1]` obtained
from `random.randint(0, N-1)` (uniform with replacement per the library
contract, modelled as an oracle), and each assigned channel a
`random.randint(180, 255)` value in `[180, 255]`. -/
theorem sparkAssignments_spec (N : Nat) (rng : Nat → Nat) (buf : List Nat)
    (hN : 0 < N) :
    (sparkAssignments N rng).length = N * 5 / 100
    ∧ (∀ a ∈ sparkAssignments N rng, a.1 < N
        ∧ 180 ≤ a.2.1 ∧ a.2.1 ≤ 255
        ∧ 180 ≤ a.2.2.1 ∧ a.2.2.1 ≤ 255
        ∧ 180 ≤ a.2.2.2 ∧ a.2.2.2 ≤ 255)
    ∧ (randomTick N (buf, rng)).1 = (sparkAssignments N rng).foldl
        (fun b a => setPixel b a.1 (a.2.1, a.2.2.1, a.2.2.2)) (decayBuf buf) := by
  refine ⟨by simp [sparkAssignments, sparkCount], ?_, rfl⟩
  intro a ha
  simp only [sparkAssignments, List.mem_map, List.mem_range] at ha
  obtain ⟨j, hj, rfl⟩ := ha
  dsimp only
  unfold randint
  have hNN : N - 1 - 0 + 1 = N := by omega
  rw [hNN]
  refine ⟨by simpa using Nat.mod_lt (rng (4 * j)) hN, ?_, ?_, ?_, ?_, ?_, ?_⟩ <;>
    omega

/-- Closed witness for `sparkAssignments_spec` at `N = 144`. -/
theorem sparkAssignments_spec_witness :
    0 < 144 ∧ (sparkAssignments 144 (fun _ => 3)).length = 144 * 5 / 100 :=
  ⟨by decide, (sparkAssignments_spec 144 (fun _ => 3) [] (by decide)).1⟩

/-- The `colors` palette of `chase_effect`: red, green, blue, yellow,
magenta, cyan. -/
def colors : List (Nat × Nat × Nat) :=
  [(255, 0, 0), (0, 255, 0), (0, 0, 255), (255, 255, 0), (255, 0, 255), (0, 255, 255)]

/-- Computes `brightness = int(255 * (10 - trail) / 10)`.  The float quotient is
exact for every `trail` in 1..9 (the values are `k/2` for integer `k`), so
truncation equals natural division. -/
def brightness (trail : Nat) : Nat := 255 * (10 - trail) / 10

/-- Computes `int(channel * brightness / 255)` for one trail channel; again the
quotient of these byte products truncates like natural division. -/
def scaleChannel (c b : Nat) : Nat := c * b / 255

/-- Computes `trail_pos = (position - trail) % num_leds` on Python ints: the
minuend may go negative, and Python's `%` with a positive modulus is
Euclidean, hence `Int` arithmetic and `toNat` of the nonnegative result. -/
def trailPos (N pos trail : Nat) : Nat := (((pos : Int) - trail) % (N : Int)).toNat

/-- The pixel writes of one `chase_effect` iteration, in program order:
first the main dot at `position` with the palette colour, then the nine
trailing dots `trail = 1..9` with the scaled colour. -/
def chaseWrites (N pos ci : Nat) : List (Nat × (Nat × Nat × Nat)) :=
  (pos, colors.getD ci (0, 0, 0)) ::
  (List.range' 1 9).map (fun trail =>
    (trailPos N pos trail,
     (scaleChannel (colors.getD ci (0, 0, 0)).1 (brightness trail),
      scaleChannel (colors.getD ci (0, 0, 0)).2.1 (brightness trail),
      scaleChannel (colors.getD ci (0, 0, 0)).2.2 (brightness trail))))

/-- Perform a list of pixel writes left to right (the successive bytearray
assignments of the loop body). -/
def applyWrites (buf : List Nat) (ws : List (Nat × (Nat × Nat × Nat))) : List Nat :=
  ws.foldl (fun b w => setPixel b w.1 w.2) buf

/-- The `dmx_data` built by one `chase_effect` iteration: clear all
channels, then apply the main-dot and trail writes. -/
def chaseFrame (N pos ci : Nat) : List Nat :=
  applyWrites (List.replicate (N * 3) 0) (chaseWrites N pos ci)

/-- Read pixel `j`'s three channels from the flat buffer. -/
def getPixel (buf : List Nat) (j : Nat) : Nat × Nat × Nat :=
  (buf.getD (j * 3) 0, buf.getD (j * 3 + 1) 0, buf.getD (j * 3 + 2) 0)

/-- The state update at the end of a `chase_effect` iteration:
`position = (position + 1) % num_leds`, and when the new position is 0,
`color_index = (color_index + 1) % len(colors)`. -/
def chaseNext (N : Nat) (st : Nat × Nat) : Nat × Nat :=
  ((st.1 + 1) % N, if (st.1 + 1) % N = 0 then (st.2 + 1) % 6 else st.2)

/-- One iteration of `chase_effect`: the frame sent and the next state. -/
def chaseTick (N : Nat) (st : Nat × Nat) : List Nat × (Nat × Nat) :=
  (chaseFrame N st.1 st.2, chaseNext N st)

/-- The claim's reference frame, stated per pixel from the spec's words:
every pixel dark except `position` (the palette colour) and the trail
pixels `(position - t) % N`, `t = 1..9`, whose channels are the palette
channels scaled by `(10-t)/10` and truncated. -/
def chasePixelSpec (N pos ci j : Nat) : Nat × Nat × Nat :=
  if j = pos then colors.getD ci (0, 0, 0)
  else
    let t := (((pos : Int) - j) % (N : Int)).toNat
    if 1 ≤ t ∧ t ≤ 9 then
      ((colors.getD ci (0, 0, 0)).1 * (10 - t) / 10,
       (colors.getD ci (0, 0, 0)).2.1 * (10 - t) / 10,
       (colors.getD ci (0, 0, 0)).2.2 * (10 - t) / 10)
    else (0, 0, 0)

lemma setPixel_length (buf : List Nat) (p : Nat) (c : Nat × Nat × Nat) :
    (setPixel buf p c).length = buf.length := by
  simp [setPixel]

lemma applyWrites_length (ws : List (Nat × (Nat × Nat × Nat))) (buf : List Nat) :
    (applyWrites buf ws).length = buf.length := by
  induction ws generalizing buf with
  | nil => rfl
  | cons w l ih =>
      show (applyWrites (setPixel buf w.1 w.2) l).length = buf.length
      rw [ih, setPixel_length]

lemma getD_set_self (l : List Nat) (i a : Nat) (h : i < l.length) :
    (l.set i a).getD i 0 = a := by
  simp [List.getD_eq_getElem?_getD, List.getElem?_set, h]

lemma getD_set_ne (l : List Nat) (i j a : Nat) (h : i ≠ j) :
    (l.set i a).getD j 0 = l.getD j 0 := by
  simp [List.getD_eq_getElem?_getD, List.getElem?_set, h]

lemma getPixel_setPixel_self (buf : List Nat) (p : Nat) (c : Nat × Nat × Nat)
    (h : p * 3 + 2 < buf.length) :
    getPixel (setPixel buf p c) p = c := by
  obtain ⟨c1, c2, c3⟩ := c
  unfold getPixel setPixel
  simp only [Prod.mk.injEq]
  refine ⟨?_, ?_, ?_⟩
  · rw [getD_set_ne _ _ _ _ (by omega), getD_set_ne _ _ _ _ (by omega),
      getD_set_self _ _ _ (by omega)]
  · rw [getD_set_ne _ _ _ _ (by omega),
      getD_set_self _ _ _ (by simpa using (by omega : p * 3 + 1 < buf.length))]
  · rw [getD_set_self _ _ _ (by simpa using (by omega : p * 3 + 2 < buf.length))]

lemma getPixel_setPixel_ne (buf : List Nat) (p q : Nat) (c : Nat × Nat × Nat)
    (h : p ≠ q) :
    getPixel (setPixel buf p c) q = getPixel buf q := by
  unfold getPixel setPixel
  simp only [Prod.mk.injEq]
  refine ⟨?_, ?_, ?_⟩ <;>
    rw [getD_set_ne _ _ _ _ (by omega), getD_set_ne _ _ _ _ (by omega),
      getD_set_ne _ _ _ _ (by omega)]

lemma getPixel_applyWrites_notMem (ws : List (Nat × (Nat × Nat × Nat)))
    (buf : List Nat) (j : Nat) (h : ∀ w ∈ ws, w.1 ≠ j) :
    getPixel (applyWrites buf ws) j = getPixel buf j := by
  induction ws generalizing buf with
  | nil => rfl
  | cons w l ih =>
      show getPixel (applyWrites (setPixel buf w.1 w.2) l) j = getPixel buf j
      rw [ih _ (fun w' hw' => h w' (List.mem_cons_of_mem _ hw')),
        getPixel_setPixel_ne _ _ _ _ (h w (List.mem_cons_self _ _))]

lemma getPixel_applyWrites_mem (ws : List (Nat × (Nat × Nat × Nat)))
    (buf : List Nat) (j : Nat) (w : Nat × (Nat × Nat × Nat))
    (hw : w ∈ ws) (hj : w.1 = j)
    (hdist : ws.Pairwise (fun a b => a.1 ≠ b.1))
    (hlen : j * 3 + 2 < buf.length) :
    getPixel (applyWrites buf ws) j = w.2 := by
  induction ws generalizing buf with
  | nil => cases hw
  | cons a l ih =>
      rcases List.mem_cons.mp hw with rfl | hw'
      · show getPixel (applyWrites (setPixel buf w.1 w.2) l) j = w.2
        rw [getPixel_applyWrites_notMem l _ j
            (fun w' hw' => by
              have := (List.pairwise_cons.mp hdist).1 w' hw'
              subst hj
              exact fun hc => this hc.symm)]
        subst hj
        exact getPixel_setPixel_self buf w.1 w.2 hlen
      · show getPixel (applyWrites (setPixel buf a.1 a.2) l) j = w.2
        exact ih (setPixel buf a.1 a.2) hw' (List.pairwise_cons.mp hdist).2
          (by rw [setPixel_length]; exact hlen)

lemma getD_replicate_zero (n i : Nat) : (List.replicate n (0 : Nat)).getD i 0 = 0 := by
  rcases Nat.lt_or_ge i n with h | h
  · simp [List.getD_eq_getElem?_getD, List.getElem?_replicate, h]
  · have hl : (List.replicate n (0 : Nat)).length ≤ i := by simpa using h
    simp [List.getD_eq_getElem?_getD, List.getElem?_eq_none hl]

lemma getPixel_replicate (n j : Nat) :
    getPixel (List.replicate n (0 : Nat)) j = (0, 0, 0) := by
  unfold getPixel
  rw [getD_replicate_zero, getD_replicate_zero, getD_replicate_zero]

lemma int_dvd_bounded_eq_zero (n x : Int) (hn : 0 < n) (hd : n ∣ x)
    (h1 : -n < x) (h2 : x < n) : x = 0 := by
  rcases hd with ⟨k, rfl⟩
  have h3 : k = 0 := by
    by_contra hk
    rcases lt_or_gt_of_ne hk with hk' | hk'
    · have hk1 : k ≤ -1 := by omega
      nlinarith
    · have hk1 : 1 ≤ k := by omega
      nlinarith
  rw [h3, mul_zero]

lemma trailPos_lt (N pos t : Nat) (hN : 0 < N) : trailPos N pos t < N := by
  unfold trailPos
  have h0 : (0 : Int) < (N : Int) := by exact_mod_cast hN
  have h1 := Int.emod_nonneg ((pos : Int) - t) (by omega : (N : Int) ≠ 0)
  have h2 := Int.emod_lt_of_pos ((pos : Int) - t) h0
  omega

lemma trailPos_eq_iff_dvd (N pos t j : Nat) (hN : 0 < N) (hj : j < N) :
    trailPos N pos t = j ↔ (N : Int) ∣ ((pos : Int) - t - j) := by
  unfold trailPos
  have h0 : (0 : Int) < (N : Int) := by exact_mod_cast hN
  have hnn := Int.emod_nonneg ((pos : Int) - t) (by omega : (N : Int) ≠ 0)
  constructor
  · intro h
    have hq : ((pos : Int) - t) % N = j := by omega
    have key : (pos : Int) - t - ((pos : Int) - t) % N
        = N * (((pos : Int) - t) / N) := by
      rw [Int.emod_def]; ring
    rw [hq] at key
    exact ⟨_, key⟩
  · rintro ⟨k, hk⟩
    have hrw : (pos : Int) - t = (j : Int) + N * k := by linarith
    rw [hrw]
    have hjm : ((j : Int) + N * k) % N = j := by
      rw [Int.add_mul_emod_self_left]
      exact Int.emod_eq_of_lt (by positivity) (by exact_mod_cast hj)
    omega

lemma colors_channels (ci : Nat) (hci : ci < 6) :
    ((colors.getD ci (0, 0, 0)).1 = 0 ∨ (colors.getD ci (0, 0, 0)).1 = 255)
    ∧ ((colors.getD ci (0, 0, 0)).2.1 = 0 ∨ (colors.getD ci (0, 0, 0)).2.1 = 255)
    ∧ ((colors.getD ci (0, 0, 0)).2.2 = 0 ∨ (colors.getD ci (0, 0, 0)).2.2 = 255) := by
  interval_cases ci <;> simp [colors]

/-- On the palette's 0-or-255 channels, the code's two-step scaling
`int(c * int(255*(10-t)/10) / 255)` equals the spec's one-step
`trunc(c * (10-t)/10)`. -/
lemma scale_eq (c t : Nat) (hc : c = 0 ∨ c = 255) (ht1 : 1 ≤ t) (ht9 : t ≤ 9) :
    scaleChannel c (brightness t) = c * (10 - t) / 10 := by
  rcases hc with rfl | rfl
  · simp [scaleChannel, brightness]
  · unfold scaleChannel brightness
    interval_cases t <;> rfl

/-- For `N ≥ 10` the ten written pixel indices of a chase frame are
pairwise distinct. -/
lemma chaseWrites_distinct (N pos ci : Nat) (hN : 10 ≤ N) (hpos : pos < N) :
    (chaseWrites N pos ci).Pairwise (fun a b => a.1 ≠ b.1) := by
  have hN0 : 0 < N := by omega
  unfold chaseWrites
  rw [List.pairwise_cons]
  constructor
  · intro w hw
    obtain ⟨t, ht, rfl⟩ := List.mem_map.mp hw
    have ht' := List.mem_range'_1.mp ht
    dsimp only
    intro h
    have hd := (trailPos_eq_iff_dvd N pos t pos hN0 hpos).mp h.symm
    have hz := int_dvd_bounded_eq_zero (N : Int) ((pos : Int) - t - pos)
      (by exact_mod_cast hN0) hd (by omega) (by omega)
    omega
  · rw [List.pairwise_map]
    have hpr : List.Pairwise (· < ·) (List.range' 1 9) := by decide
    refine hpr.imp_of_mem ?_
    intro t t' ht ht' hlt
    have htb := List.mem_range'_1.mp ht
    have htb' := List.mem_range'_1.mp ht'
    dsimp only
    intro h
    have hj' : trailPos N pos t' < N := trailPos_lt N pos t' hN0
    have h1 := (trailPos_eq_iff_dvd N pos t (trailPos N pos t') hN0 hj').mp h
    have h2 := (trailPos_eq_iff_dvd N pos t' (trailPos N pos t') hN0 hj').mp rfl
    have hd : (N : Int) ∣ ((t' : Int) - t) := by
      have hsub := dvd_sub h1 h2
      rwa [show (pos : Int) - t - trailPos N pos t'
          - ((pos : Int) - t' - trailPos N pos t') = (t' : Int) - t from by ring] at hsub
    have hz := int_dvd_bounded_eq_zero (N : Int) ((t' : Int) - t)
      (by exact_mod_cast hN0) hd (by omega) (by omega)
    omega

/-- Pixelwise refinement: for `N ≥ 10` (always true in this program, whose
strip length is the constant 144) the frame the chase loop builds agrees
with the spec's per-pixel reference at every pixel. -/
lemma chaseFrame_pixel (N pos ci j : Nat) (hN : 10 ≤ N) (hpos : pos < N)
    (hci : ci < 6) (hj : j < N) :
    getPixel (chaseFrame N pos ci) j = chasePixelSpec N pos ci j := by
  have hN0 : 0 < N := by omega
  have hlen : j * 3 + 2 < (List.replicate (N * 3) (0 : Nat)).length := by
    simp only [List.length_replicate]; omega
  by_cases hjp : j = pos
  · subst hjp
    rw [chaseFrame, getPixel_applyWrites_mem (chaseWrites N j ci) _ j
        (j, colors.getD ci (0, 0, 0)) (List.mem_cons_self _ _) rfl
        (chaseWrites_distinct N j ci hN hpos) hlen]
    rw [chasePixelSpec, if_pos rfl]
  · set t : Nat := (((pos : Int) - j) % (N : Int)).toNat with htdef
    have hem := Int.emod_nonneg ((pos : Int) - j) (by omega : (N : Int) ≠ 0)
    have htI : (t : Int) = ((pos : Int) - j) % N := Int.toNat_of_nonneg hem
    have htlt : t < N := by
      have := Int.emod_lt_of_pos ((pos : Int) - j) (by omega : (0 : Int) < (N : Int))
      omega
    have hdvdt : (N : Int) ∣ ((pos : Int) - t - j) := by
      rw [htI, Int.emod_def]
      exact ⟨((pos : Int) - j) / N, by ring⟩
    by_cases hti : 1 ≤ t ∧ t ≤ 9
    · have heq : trailPos N pos t = j := (trailPos_eq_iff_dvd N pos t j hN0 hj).mpr hdvdt
      have hwmem : (trailPos N pos t,
          (scaleChannel (colors.getD ci (0, 0, 0)).1 (brightness t),
           scaleChannel (colors.getD ci (0, 0, 0)).2.1 (brightness t),
           scaleChannel (colors.getD ci (0, 0, 0)).2.2 (brightness t)))
          ∈ chaseWrites N pos ci := by
        unfold chaseWrites
        refine List.mem_cons_of_mem _ (List.mem_map.mpr ⟨t, ?_, rfl⟩)
        exact List.mem_range'_1.mpr ⟨hti.1, by omega⟩
      rw [chaseFrame, getPixel_applyWrites_mem (chaseWrites N pos ci) _ j _ hwmem heq
          (chaseWrites_distinct N pos ci hN hpos) hlen]
      simp only [chasePixelSpec, ← htdef, if_neg hjp, if_pos hti]
      obtain ⟨hc1, hc2, hc3⟩ := colors_channels ci hci
      rw [scale_eq _ _ hc1 hti.1 hti.2, scale_eq _ _ hc2 hti.1 hti.2,
        scale_eq _ _ hc3 hti.1 hti.2]
    · have hnone : ∀ w ∈ chaseWrites N pos ci, w.1 ≠ j := by
        intro w hw
        unfold chaseWrites at hw
        rcases List.mem_cons.mp hw with rfl | hw'
        · exact fun hc => hjp hc.symm
        · obtain ⟨t', ht', rfl⟩ := List.mem_map.mp hw'
          have htb' := List.mem_range'_1.mp ht'
          dsimp only
          intro hc
          have hdvd' := (trailPos_eq_iff_dvd N pos t' j hN0 hj).mp hc
          have hd : (N : Int) ∣ ((t : Int) - t') := by
            have hsub := dvd_sub hdvd' hdvdt
            rwa [show (pos : Int) - t' - j - ((pos : Int) - t - j)
              = (t : Int) - t' from by ring] at hsub
          have hz := int_dvd_bounded_eq_zero (N : Int) ((t : Int) - t')
            (by exact_mod_cast hN0) hd (by omega) (by omega)
          exact hti (by omega)
      rw [chaseFrame, getPixel_applyWrites_notMem _ _ _ hnone, getPixel_replicate]
      simp only [chasePixelSpec, ← htdef, if_neg hjp, if_neg hti]

/-- The trail index that reaches pixel `j` is `((pos - j) mod N)`. -/
lemma trailPos_back (N pos j : Nat) (hN : 0 < N) (hj : j < N) :
    trailPos N pos ((((pos : Int) - j) % (N : Int)).toNat) = j := by
  set t : Nat := (((pos : Int) - j) % (N : Int)).toNat with htdef
  have hem := Int.emod_nonneg ((pos : Int) - j) (by omega : (N : Int) ≠ 0)
  have htI : (t : Int) = ((pos : Int) - j) % N := Int.toNat_of_nonneg hem
  refine (trailPos_eq_iff_dvd N pos t j hN hj).mpr ?_
  rw [htI, Int.emod_def]
  exact ⟨((pos : Int) - j) / N, by ring⟩

/-- Closed form of the chase state after `k` ticks: position advances mod
`N`, and the colour index counts completed laps mod 6. -/
lemma chaseNext_iterate (N p c k : Nat) (hp : p < N) (hc : c < 6) :
    (chaseNext N)^[k] (p, c) = ((p + k) % N, (c + (p + k) / N) % 6) := by
  induction k with
  | zero =>
      simp [Nat.mod_eq_of_lt hp, Nat.div_eq_of_lt hp, Nat.mod_eq_of_lt hc]
  | succ m ih =>
      rw [Function.iterate_succ_apply', ih]
      unfold chaseNext
      dsimp only
      simp only [← Nat.add_assoc]
      have hmod : ((p + m) % N + 1) % N = (p + m + 1) % N := Nat.mod_add_mod (p + m) N 1
      rw [hmod]
      by_cases hz : (p + m + 1) % N = 0
      · rw [if_pos hz]
        have hdvd : N ∣ (p + m + 1) := Nat.dvd_of_mod_eq_zero hz
        have hsd : (p + m + 1) / N = (p + m) / N + 1 := by
          rw [Nat.succ_div, if_pos hdvd]
        rw [hsd]
        refine Prod.ext rfl ?_
        dsimp only
        rw [Nat.mod_add_mod, Nat.add_assoc]
      · rw [if_neg hz]
        have hnd : ¬ N ∣ (p + m + 1) := fun hd => hz (Nat.mod_eq_zero_of_dvd hd)
        have hsd : (p + m + 1) / N = (p + m) / N := by
          rw [Nat.succ_div, if_neg hnd]
          omega
        rw [hsd]

/-- Over one full lap of `N` ticks the position returns and the colour
index advances exactly once. -/
lemma chaseState_lap (N p c : Nat) (hN : 0 < N) (hp : p < N) (hc : c < 6) :
    (chaseNext N)^[N] (p, c) = (p, (c + 1) % 6) := by
  rw [chaseNext_iterate N p c N hp hc]
  refine Prod.ext ?_ ?_ <;> dsimp only
  · rw [Nat.add_mod_right, Nat.mod_eq_of_lt hp]
  · rw [Nat.add_div_right _ hN, Nat.div_eq_of_lt hp]

/-- Within any window of `N` ticks the position visits every value. -/
lemma chase_positions_all (N p c q : Nat) (hp : p < N) (hc : c < 6)
    (hq : q < N) :
    ∃ k, k < N ∧ ((chaseNext N)^[k] (p, c)).1 = q := by
  refine ⟨if p ≤ q then q - p else q + N - p, by split <;> omega, ?_⟩
  rw [chaseNext_iterate N p c _ hp hc]
  dsimp only
  split
  · rw [show p + (q - p) = q by omega, Nat.mod_eq_of_lt hq]
  · rw [show p + (q + N - p) = q + N by omega, Nat.add_mod_right, Nat.mod_eq_of_lt hq]

/-- Claim C5: for every chase state `(position, color_index)` and strip
length `N ≥ 10` (the program's strip length is the constant 144; the
claim's nine distinct trail pixels presuppose `N ≥ 10`), the frame equals
the per-pixel reference definition `chasePixelSpec` at every pixel; the
pixel at `position` carries `palette[color_index]` and is non-zero; every
non-zero pixel is the main dot or one of the ≤ 9 trail pixels; position
cycles through all `N` values every `N` ticks; and the colour index
advances exactly once per full lap. -/
theorem chase_spec (N pos ci : Nat) (hN : 10 ≤ N) (hpos : pos < N) (hci : ci < 6) :
    (∀ j : Nat, j < N → getPixel (chaseFrame N pos ci) j = chasePixelSpec N pos ci j)
    ∧ getPixel (chaseFrame N pos ci) pos = colors.getD ci (0, 0, 0)
    ∧ getPixel (chaseFrame N pos ci) pos ≠ (0, 0, 0)
    ∧ (∀ j : Nat, j < N → getPixel (chaseFrame N pos ci) j ≠ (0, 0, 0) →
        j = pos ∨ ∃ t, 1 ≤ t ∧ t ≤ 9 ∧ j = trailPos N pos t)
    ∧ chaseTick N (pos, ci) = (chaseFrame N pos ci, chaseNext N (pos, ci))
    ∧ (∀ k : Nat, ((chaseNext N)^[k] (pos, ci)).1 = (pos + k) % N)
    ∧ (∀ q : Nat, q < N → ∃ k, k < N ∧ ((chaseNext N)^[k] (pos, ci)).1 = q)
    ∧ (chaseNext N)^[N] (pos, ci) = (pos, (ci + 1) % 6) := by
  have hN0 : 0 < N := by omega
  have hmain : getPixel (chaseFrame N pos ci) pos = colors.getD ci (0, 0, 0) := by
    rw [chaseFrame_pixel N pos ci pos hN hpos hci hpos, chasePixelSpec, if_pos rfl]
  refine ⟨fun j hj => chaseFrame_pixel N pos ci j hN hpos hci hj, hmain, ?_, ?_, rfl,
    ?_, fun q hq => chase_positions_all N pos ci q hpos hci hq,
    chaseState_lap N pos ci hN0 hpos hci⟩
  · rw [hmain]
    interval_cases ci <;> simp [colors]
  · intro j hj hne
    rw [chaseFrame_pixel N pos ci j hN hpos hci hj] at hne
    unfold chasePixelSpec at hne
    by_cases hjp : j = pos
    · exact Or.inl hjp
    · rw [if_neg hjp] at hne
      dsimp only at hne
      by_cases hti : 1 ≤ (((pos : Int) - j) % (N : Int)).toNat
          ∧ (((pos : Int) - j) % (N : Int)).toNat ≤ 9
      · exact Or.inr ⟨(((pos : Int) - j) % (N : Int)).toNat, hti.1, hti.2,
          (trailPos_back N pos j hN0 hj).symm⟩
      · rw [if_neg hti] at hne
        exact absurd rfl hne
  · intro k
    rw [chaseNext_iterate N pos ci k hpos hci]

/-- Closed witness for `chase_spec` at `N = 144`, `(position, color_index)
= (5, 2)`, reading off the full-lap clause. -/
theorem chase_spec_witness :
    (10 ≤ 144 ∧ 5 < 144 ∧ 2 < 6)
    ∧ (chaseNext 144)^[144] (5, 2) = (5, (2 + 1) % 6) :=
  ⟨⟨by decide, by decide, by decide⟩,
   (chase_spec 144 5 2 (by decide) (by decide) (by decide)).2.2.2.2.2.2.2⟩
